import Mathlib

/-!
Verification of the MongoEngine form-conversion module
(`flask_admin/contrib/mongoengine/form.py`).

The module converts MongoEngine document-schema field descriptors into
WTForms form fields.  We give a shallow embedding:

* Python dicts used as ordered field mappings are modelled as
  insertion-ordered association lists (`dinsert` replaces the value of an
  existing key in place and appends fresh keys at the end; `dget` returns
  the value of the last binding, matching `dict(pairs)` construction).
* The converter object state (`view.form_overrides`, the inherited
  converter registry of the flask-mongoengine base class) is a read-only
  context `ConvCtx`.
* Field descriptors and document schemas are a mutual inductive
  (`MField` / `MModel`), since embedded-document fields carry a schema.
* Exceptions (`TypeError`, `ValueError`, the `NameError` raised by the
  malformed `exclude` generator expression) become an `Except Err` result.
* The mutual recursion `convert` / `conv_List` / `get_form` is given a
  fuel parameter so that every definition is a computable structural
  recursion; `.error .outOfFuel` only appears when fuel runs out.
-/

namespace MongoForm

/-- Python values appearing as field defaults. -/
inductive PyVal where
  | none
  | int (n : Int)
  | str (s : String)
  | bool (b : Bool)
deriving DecidableEq, Repr

/-- WTForms validators; the module only ever appends `validators.Required()`
or `validators.Optional()`, any caller-supplied validator is opaque. -/
inductive Validator where
  | required
  | optional
  | other (s : String)
deriving DecidableEq, Repr

/-- Widgets attached by the custom converters. -/
inductive Widget where
  | dateTimePicker
  | select2 (multiple : Bool)
  | inlineForm
  | other (s : String)
deriving DecidableEq, Repr

/-- A Python keyword-argument dict as used for field construction.  Every
key the module ever reads or writes is a component; `none` means the key
is absent.  The same type models the per-field `field_args` dicts, which
are merged into the kwargs by `dict.update`. -/
structure Kwargs where
  label : Option String := Option.none
  description : Option String := Option.none
  validators : Option (List Validator) := Option.none
  filters : Option (List String) := Option.none
  default : Option PyVal := Option.none
  choices : Option (List (String × String)) := Option.none
  coerce : Option String := Option.none
  multiple : Option Bool := Option.none
  widget : Option Widget := Option.none
  allow_blank : Option Bool := Option.none
deriving DecidableEq, Repr

/-- `kwargs.update(field_args)`: keys present in `fa` win. -/
def Kwargs.update (k fa : Kwargs) : Kwargs where
  label := fa.label <|> k.label
  description := fa.description <|> k.description
  validators := fa.validators <|> k.validators
  filters := fa.filters <|> k.filters
  default := fa.default <|> k.default
  choices := fa.choices <|> k.choices
  coerce := fa.coerce <|> k.coerce
  multiple := fa.multiple <|> k.multiple
  widget := fa.widget <|> k.widget
  allow_blank := fa.allow_blank <|> k.allow_blank

/-- A pre-built WTForms field supplied by the caller through
`extra_fields` (wrapped in a `FieldPlaceholder` by `get_form`).  Opaque to
the conversion logic, hence only a tag. -/
structure RawField where
  tag : String
deriving DecidableEq, Repr

/-- Python exceptions raised by the module. -/
inductive Err where
  | typeError (msg : String)
  | valueError (msg : String)
  | nameError (msg : String)
  | outOfFuel
deriving DecidableEq, Repr

mutual
/-- A MongoEngine field descriptor: exactly the attributes the module
reads.  `ftype` is `type(field).__name__`; `verbose_name none` models the
attribute being absent so `getattr(field, 'verbose_name', field.name)`
falls back to the name; `subfield` is `field.field` of a ListField;
`doc_type_name` is `field.document_type` of a ReferenceField element;
`document_type_obj` is the embedded-document schema. -/
inductive MField where
  | mk (name : String) (ftype : String) (verbose_name : Option String)
      (help_text : Option String) (required : Bool) (default : PyVal)
      (choices : List (String × String)) (has_to_form_field : Bool)
      (subfield : Option MField) (doc_type_name : String)
      (document_type_obj : Option MModel) (creation_counter : Nat) : MField

/-- A MongoEngine document schema: class name and the `_fields` dict in
its insertion order. -/
inductive MModel where
  | mk (name : String) (fields : List (String × MField)) : MModel
end

def MField.name : MField → String
  | .mk n _ _ _ _ _ _ _ _ _ _ _ => n

def MField.ftype : MField → String
  | .mk _ t _ _ _ _ _ _ _ _ _ _ => t

def MField.verbose_name : MField → Option String
  | .mk _ _ v _ _ _ _ _ _ _ _ _ => v

def MField.help_text : MField → Option String
  | .mk _ _ _ h _ _ _ _ _ _ _ _ => h

def MField.required : MField → Bool
  | .mk _ _ _ _ r _ _ _ _ _ _ _ => r

def MField.default : MField → PyVal
  | .mk _ _ _ _ _ d _ _ _ _ _ _ => d

def MField.choices : MField → List (String × String)
  | .mk _ _ _ _ _ _ c _ _ _ _ _ => c

def MField.has_to_form_field : MField → Bool
  | .mk _ _ _ _ _ _ _ b _ _ _ _ => b

def MField.subfield : MField → Option MField
  | .mk _ _ _ _ _ _ _ _ s _ _ _ => s

def MField.doc_type_name : MField → String
  | .mk _ _ _ _ _ _ _ _ _ d _ _ => d

def MField.document_type_obj : MField → Option MModel
  | .mk _ _ _ _ _ _ _ _ _ _ o _ => o

def MField.creation_counter : MField → Nat
  | .mk _ _ _ _ _ _ _ _ _ _ _ c => c

def MModel.name : MModel → String
  | .mk n _ => n

def MModel.fields : MModel → List (String × MField)
  | .mk _ fs => fs

/-- Input to `convert`: either a real schema field or a
`FieldPlaceholder` wrapping a pre-built field (used for `extra_fields`
resolved through `only`). -/
inductive PField where
  | placeholder (f : RawField)
  | real (f : MField)

mutual
/-- A produced WTForms field.  Each constructor records the conversion
path taken and the keyword arguments handed to the field constructor;
results of external code (the flask-mongoengine base converters, a
field's own `to_form_field` hook, a caller-registered override) are
opaque constructors recording their inputs. -/
inductive FormField where
  | recreated (f : RawField) : FormField
  | selectField (k : Kwargs) : FormField
  | selectMultipleField (k : Kwargs) : FormField
  | hookResult (fieldName : String) (k : Kwargs) : FormField
  | overrideResult (fieldName : String) (k : Kwargs) : FormField
  | baseConverted (ftype : String) (k : Kwargs) : FormField
  | modelSelectMultiple (docType : String) (k : Kwargs) : FormField
  | inlineFieldList (inner : Option FormField) (minEntries : Nat) (k : Kwargs) : FormField
  | modelFormField (modelName : String) (form : FormType) (k : Kwargs) : FormField
  | mongoFile (k : Kwargs) : FormField
  | mongoImage (k : Kwargs) : FormField

/-- A class attribute of the produced form type: a form field, or the
`model_class` back reference to the schema. -/
inductive Attr where
  | afield (f : FormField) : Attr
  | modelRef (m : MModel) : Attr

/-- The dynamically created form type `<SchemaName>Form`: its name and
its class-attribute dict in insertion order. -/
inductive FormType where
  | mk (name : String) (attrs : List (String × Attr)) : FormType
end

/-- The kwargs recorded in a produced field, if any. -/
def FormField.kwargsOf : FormField → Option Kwargs
  | .recreated _ => Option.none
  | .selectField k => some k
  | .selectMultipleField k => some k
  | .hookResult _ k => some k
  | .overrideResult _ k => some k
  | .baseConverted _ k => some k
  | .modelSelectMultiple _ k => some k
  | .inlineFieldList _ _ k => some k
  | .modelFormField _ _ k => some k
  | .mongoFile k => some k
  | .mongoImage k => some k

/-- The validator list carried by a produced field (the `validators`
entry of the kwargs it was constructed with). -/
def FormField.kwargsValidators (f : FormField) : Option (List Validator) :=
  match f.kwargsOf with
  | some k => k.validators
  | Option.none => Option.none

/-- Python `dict` lookup for a dict built from an association list
(`dict(pairs)` keeps the last value for a duplicated key). -/
def dget {α : Type} : List (String × α) → String → Option α
  | [], _ => Option.none
  | (k, v) :: t, n =>
    match dget t n with
    | some w => some w
    | Option.none => if k = n then some v else Option.none

/-- Python `d[k] = v` on an insertion-ordered dict: replace in place if
the key exists, else append. -/
def dinsert {α : Type} (k : String) (v : α) : List (String × α) → List (String × α)
  | [] => [(k, v)]
  | (k', v') :: t => if k' = k then (k, v) :: t else (k', v') :: dinsert k v t

/-- First-binding lookup; on dicts built with `dinsert` keys are unique,
so this agrees with `dget`.  Used to read attributes of a finished form. -/
def dfind {α : Type} : List (String × α) → String → Option α
  | [], _ => Option.none
  | (k, v) :: t, n => if k = n then some v else dfind t n

/-- Read-only converter state: the names for which `view.form_overrides`
holds a callable, and the field-type names registered by the inherited
flask-mongoengine `ModelConverter` (external code, so kept abstract as a
parameter). -/
structure ConvCtx where
  overrides : List String
  baseConverters : List String

/-- The `@orm.converts(...)` registrations made in this module; they
shadow base-class entries of the same name in `self.converters`. -/
def customConverterNames : List String :=
  ["DateTimeField", "ListField", "EmbeddedDocumentField",
   "ReferenceField", "FileField", "ImageField"]

/-- `ftype in self.converters`. -/
def registeredConverter (ctx : ConvCtx) (ftype : String) : Bool :=
  ftype ∈ customConverterNames || ftype ∈ ctx.baseConverters

/-- The presence validator appended by `convert`
(`validators.Required()` when the field is required, else
`validators.Optional()`). -/
def presenceValidator (f : MField) : Validator :=
  if f.required then .required else .optional

/-- The baseline kwargs dict built by `convert` before merging
`field_args`. -/
def baseKwargs (f : MField) : Kwargs where
  label := some (f.verbose_name.getD f.name)
  description := some (f.help_text.getD "")
  validators := some []
  filters := some []
  default := some f.default

/-- Lines 44-58 of `convert`: build the baseline kwargs, merge the
caller's `field_args` on top, then append the presence validator. -/
def assembleKwargs (f : MField) (fa : Option Kwargs) : Kwargs :=
  let k := match fa with
    | some a => (baseKwargs f).update a
    | Option.none => baseKwargs f
  { k with validators := some (k.validators.getD [] ++ [presenceValidator f]) }

/-- The message of the `ValueError` raised by `conv_List` when the list
field has no element type. -/
def listFieldMsg (fieldName modelName : String) : String :=
  "ListField \"" ++ fieldName ++ "\" must have field specified for model " ++ modelName

/-- The message of the `ValueError` raised by `find` in `get_form` for an
unresolvable `only` name. -/
def invalidPropertyMsg (modelName fieldName : String) : String :=
  "Invalid model property name " ++ modelName ++ "." ++ fieldName

/-- Modelled from the spec: `form.recreate_field` (defined in
`flask.ext.admin.form`, outside this repository) returns a freshly
recreated copy of a pre-built field, so that form types never share
field state. -/
def recreate_field (rf : RawField) : FormField :=
  .recreated rf

/-- Truthiness of the optional `only` / `exclude` arguments
(`if only:` — `None` and the empty list are falsy). -/
def truthyList {α : Type} : Option (List α) → Bool
  | some (_ :: _) => true
  | _ => false

/-- The `if extra_fields and name in extra_fields` test of `find` in
`get_form`, returning the extra field when it applies. -/
def extraLookup (extras : Option (List (String × RawField))) (fieldName : String) :
    Option RawField :=
  match extras with
  | some exl => if truthyList (some exl) then dget exl fieldName else Option.none
  | Option.none => Option.none

/-- The inner `find` of `get_form`: an `only` name resolves to an
`extra_fields` entry (wrapped in a placeholder) when present there, else
to a declared schema field, else raises `ValueError`. -/
def findProp (extras : Option (List (String × RawField)))
    (props : List (String × MField)) (modelName fieldName : String) :
    Except Err PField :=
  match extraLookup extras fieldName with
  | some rf => .ok (.placeholder rf)
  | Option.none =>
    match dget props fieldName with
    | some p => .ok (.real p)
    | Option.none => .error (.valueError (invalidPropertyMsg modelName fieldName))

/-- Comparison key of the `sorted(..., key=lambda v: v[1].creation_counter)`
call in `get_form`. -/
def fieldLe (a b : String × MField) : Prop :=
  a.2.creation_counter ≤ b.2.creation_counter

instance : DecidableRel fieldLe := fun a b =>
  Nat.decLe a.2.creation_counter b.2.creation_counter

instance : IsTotal (String × MField) fieldLe :=
  ⟨fun a b => Nat.le_total a.2.creation_counter b.2.creation_counter⟩

instance : IsTrans (String × MField) fieldLe :=
  ⟨fun _ _ _ => Nat.le_trans⟩

/-- Python `sorted` is a stable ascending sort; insertion sort with `≤`
is stable, so the two agree. -/
def sortByCounter (l : List (String × MField)) : List (String × MField) :=
  List.insertionSort fieldLe l

/-- The field names of the schema in declaration order (ascending
creation counter, stable). -/
def declarationOrder (m : MModel) : List String :=
  (sortByCounter m.fields).map Prod.fst

/-- The tail of `get_form` after the conversion loop: merge recreated
extra fields when `only` was falsy and `extra_fields` truthy (the caller
passes `Option.none` for `extras` in the `only` branch), then set
`model_class` and create the form type. -/
def finishForm (m : MModel) (fd : List (String × FormField))
    (extras : Option (List (String × RawField))) : FormType :=
  let fd := match extras with
    | some (e :: es) =>
      (e :: es).foldl
        (fun acc (p : String × RawField) => dinsert p.1 (recreate_field p.2) acc) fd
    | _ => fd
  .mk (m.name ++ "Form")
    (dinsert "model_class" (Attr.modelRef m)
      (fd.map (fun (p : String × FormField) => (p.1, Attr.afield p.2))))

mutual
/-- `CustomModelConverter.convert`: placeholder check, kwargs assembly
with presence validator, choice handling, `to_form_field` hook,
per-name override, then dispatch on the concrete type name; an
unregistered type name yields `none` (the implicit `return None`). -/
def convert (ctx : ConvCtx) : Nat → MModel → PField → Option Kwargs →
    Except Err (Option FormField)
  | 0, _, _, _ => .error .outOfFuel
  | _ + 1, _, .placeholder rf, _ => .ok (some (recreate_field rf))
  | fuel + 1, m, .real f, fa =>
    let kw := assembleKwargs f fa
    match f.choices with
    | _ :: _ =>
      let kw1 := { kw with choices := some f.choices }
      let kw2 := if registeredConverter ctx f.ftype then
          { kw1 with coerce := some f.ftype } else kw1
      let mult := kw2.multiple.getD false
      let kw3 := { kw2 with multiple := Option.none }
      .ok (some (if mult then .selectMultipleField kw3 else .selectField kw3))
    | [] =>
      if f.has_to_form_field then .ok (some (.hookResult f.name kw))
      else if f.name ∈ ctx.overrides then .ok (some (.overrideResult f.name kw))
      else if f.ftype = "DateTimeField" then
        .ok (some (.baseConverted "DateTimeField"
          { kw with widget := some .dateTimePicker }))
      else if f.ftype = "ListField" then conv_List ctx fuel m f kw
      else if f.ftype = "EmbeddedDocumentField" then
        match f.document_type_obj with
        | Option.none => .error (.typeError "Model must be a mongoengine Document schema")
        | some dm =>
          match get_form ctx fuel dm Option.none Option.none [] Option.none with
          | .error e => .error e
          | .ok fc => .ok (some (.modelFormField dm.name fc
              { validators := some [], filters := some [],
                widget := some .inlineForm }))
      else if f.ftype = "ReferenceField" then
        let kwr := { kw with widget := some (Widget.select2 false),
                             allow_blank := some (!f.required) }
        .ok (some (.baseConverted "ReferenceField" kwr))
      else if f.ftype = "FileField" then .ok (some (.mongoFile kw))
      else if f.ftype = "ImageField" then .ok (some (.mongoImage kw))
      else if f.ftype ∈ ctx.baseConverters then
        .ok (some (.baseConverted f.ftype kw))
      else .ok Option.none

/-- `conv_List`: error on a missing element type; reference elements
become a `ModelSelectMultipleField` with a multi-select widget; elements
with choices are re-converted with `multiple` set in the same kwargs
dict; otherwise the element is converted with empty field args and
wrapped in an `InlineFieldList` with fresh kwargs. -/
def conv_List (ctx : ConvCtx) : Nat → MModel → MField → Kwargs →
    Except Err (Option FormField)
  | 0, _, _, _ => .error .outOfFuel
  | fuel + 1, m, f, kw =>
    match f.subfield with
    | Option.none => .error (.valueError (listFieldMsg f.name m.name))
    | some sub =>
      if sub.ftype = "ReferenceField" then
        .ok (some (.modelSelectMultiple sub.doc_type_name
          { kw with widget := some (.select2 true) }))
      else
        match sub.choices with
        | _ :: _ => convert ctx fuel m (.real sub) (some { kw with multiple := some true })
        | [] =>
          match convert ctx fuel m (.real sub) (some {}) with
          | .error e => .error e
          | .ok ub => .ok (some (.inlineFieldList ub 0
              { validators := some [], filters := some [] }))

/-- The conversion loop of `get_form`: walk the (name, property) stream
in order, re-raise resolution errors, call `convert` with the per-name
field args, and store non-`none` results under their name. -/
def create_fields (ctx : ConvCtx) : Nat → MModel →
    List (String × Except Err PField) → List (String × Kwargs) →
    List (String × FormField) → Except Err (List (String × FormField))
  | _, _, [], _, acc => .ok acc
  | 0, _, _ :: _, _, _ => .error .outOfFuel
  | _ + 1, _, (_, .error e) :: _, _, _ => .error e
  | fuel + 1, m, (n, .ok p) :: rest, fas, acc =>
    match convert ctx fuel m p (dget fas n) with
    | .error e => .error e
    | .ok Option.none => create_fields ctx fuel m rest fas acc
    | .ok (some f) => create_fields ctx fuel m rest fas (dinsert n f acc)

/-- `get_form`: sort the schema fields by creation counter; with a
truthy `only`, resolve exactly those names through `findProp`; else with
a truthy `exclude`, the malformed generator expression
`(p for p in properties in p[0] not in exclude)` immediately evaluates
`properties in p[0]` with `p` unbound and raises `NameError`; else use
the full ordered field list.  Convert, merge extras, set `model_class`,
and build the form type. -/
def get_form (ctx : ConvCtx) : Nat → MModel → Option (List String) →
    Option (List String) → List (String × Kwargs) →
    Option (List (String × RawField)) → Except Err FormType
  | 0, _, _, _, _, _ => .error .outOfFuel
  | fuel + 1, m, only, excl, fas, extras =>
    let properties := sortByCounter m.fields
    match only with
    | some (n :: rest) =>
      match create_fields ctx fuel m
          ((n :: rest).map (fun nm => (nm, findProp extras properties m.name nm)))
          fas [] with
      | .error e => .error e
      | .ok fd => .ok (finishForm m fd Option.none)
    | _ =>
      match excl with
      | some (_ :: _) => .error (.nameError "name p is not defined")
      | _ =>
        match create_fields ctx fuel m
            (properties.map (fun p => (p.1, Except.ok (.real p.2)))) fas [] with
        | .error e => .error e
        | .ok fd => .ok (finishForm m fd extras)
end

/-! ### Heap-effect model for the caller-supplied `field_args`

`convert` builds its kwargs dict fresh, but `kwargs.update(field_args)`
copies the caller's `validators` *list reference* into the kwargs when
`field_args` carries that key, and `kwargs['validators'].append(...)`
then mutates the caller's list in place.  The following definitions
model the contents of the caller's `field_args` entry after `convert`
returns, under CPython aliasing semantics.  The presence validator of
the field itself is always appended; when the conversion reaches
`conv_List` and the element type carries choices, `conv_List` re-enters
`convert` passing the *same* kwargs dict as field args, so the element's
presence validator lands in the same aliased list as well.  All other
paths (`InlineFieldList`, `conv_EmbeddedDocument`) replace the kwargs
dict by a fresh one before constructing a field and never touch the
caller's list again. -/

/-- The validators appended (through the alias) to a caller-supplied
`validators` list during one `convert` call on a non-placeholder field. -/
def aliasedAppends (ctx : ConvCtx) (f : MField) : List Validator :=
  presenceValidator f ::
    (match f.subfield with
     | some sub =>
       if f.choices = [] ∧ f.has_to_form_field = false ∧ f.name ∉ ctx.overrides ∧
           f.ftype = "ListField" ∧ sub.ftype ≠ "ReferenceField" ∧ sub.choices ≠ [] then
         [presenceValidator sub]
       else []
     | Option.none => [])

/-- The contents of a caller-supplied `field_args` dict after `convert`
returns: unchanged unless it carries a `validators` key, whose list is
mutated in place by the appends above. -/
def convertFieldArgsAfter (ctx : ConvCtx) (f : MField) (fa : Kwargs) : Kwargs :=
  match fa.validators with
  | Option.none => fa
  | some v => { fa with validators := some (v ++ aliasedAppends ctx f) }

/-! ### Observations on produced forms -/

/-- Names of the attributes that are form fields (the class attribute
`model_class` is a schema reference, not a form field). -/
def attrFieldNames (l : List (String × Attr)) : List String :=
  l.filterMap (fun p => match p.2 with
    | .afield _ => some p.1
    | .modelRef _ => Option.none)

/-- The form-field names of a produced form type, in order. -/
def FormType.fieldNames : FormType → List String
  | .mk _ attrs => attrFieldNames attrs

/-- The class-attribute dict of a produced form type. -/
def FormType.attrs : FormType → List (String × Attr)
  | .mk _ attrs => attrs

/-- The name of a produced form type. -/
def FormType.nameOf : FormType → String
  | .mk n _ => n

/-- Look up a class attribute of a produced form type. -/
def FormType.attr (ft : FormType) (k : String) : Option Attr :=
  dfind ft.attrs k

/-- The field names of a form restricted to names declared in the
schema. -/
def schemaFieldSeq (m : MModel) (ft : FormType) : List String :=
  ft.fieldNames.filter (fun n => (dget m.fields n).isSome)

/-- Unwrap a successful `get_form` result (used only at concrete inputs
whose success is proved alongside). -/
def exOk : Except Err FormType → FormType
  | .ok ft => ft
  | .error _ => .mk "" []

/-- The `validators` entry of an optional field-args dict. -/
def faValidators : Option Kwargs → Option (List Validator)
  | some a => a.validators
  | Option.none => Option.none

/-- Classify a conversion result as a single/multi select field and
extract its choice list; `none` for any other outcome. -/
def selectShape : Except Err (Option FormField) →
    Option (Bool × Option (List (String × String)))
  | .ok (some (.selectField k)) => some (false, k.choices)
  | .ok (some (.selectMultipleField k)) => some (true, k.choices)
  | _ => Option.none

/-- The `multiple` flag requested through `field_args`
(`kwargs.pop('multiple', False)` after the merge). -/
def faMultiple (fa : Option Kwargs) : Bool :=
  (match fa with
   | some a => a.multiple
   | Option.none => Option.none).getD false

/-- Replace the `to_form_field` hook flag of a field descriptor. -/
def MField.withHook : MField → Bool → MField
  | .mk n t v h r d c _ s dt o cc, b => .mk n t v h r d c b s dt o cc

/-- `true` when a conversion result is a silent success
(`.ok (some field)`). -/
def convertedSome : Except Err (Option FormField) → Bool
  | .ok (some _) => true
  | _ => false

/-- The validator list of the field produced by a conversion result. -/
def resultValidators : Except Err (Option FormField) → Option (List Validator)
  | .ok (some ff) => ff.kwargsValidators
  | _ => Option.none

/-! ### Concrete fixtures used by witnesses and counterexamples -/

/-- A converter context: no per-name overrides, a base registry with the
usual scalar converters. -/
def ctx0 : ConvCtx := ⟨[], ["StringField", "IntField"]⟩

/-- A field of a type with no registered converter. -/
def fWeird : MField :=
  .mk "a" "GeoField" Option.none Option.none false PyVal.none [] false
    Option.none "" Option.none 1

/-- A required string field. -/
def fStrB : MField :=
  .mk "b" "StringField" Option.none Option.none true PyVal.none [] false
    Option.none "" Option.none 2

/-- A schema with an unconvertible field `a` followed by a convertible
field `b`. -/
def mAB : MModel := .mk "Doc1" [("a", fWeird), ("b", fStrB)]

/-- A pre-built extra field. -/
def rawX : RawField := ⟨"x"⟩

/-- Another pre-built extra field. -/
def raw6 : RawField := ⟨"pre"⟩

/-- A list field with no element type but with a choice set. -/
def fList7 : MField :=
  .mk "tags" "ListField" Option.none Option.none true PyVal.none
    [("a", "a")] false Option.none "" Option.none 1

/-- A one-field schema. -/
def mOne : MModel := .mk "Doc" [("tags", fList7)]

/-- A plain optional string element field. -/
def subStr : MField :=
  .mk "item" "StringField" Option.none Option.none false PyVal.none [] false
    Option.none "" Option.none 1

/-- A required list field whose elements are plain strings. -/
def fList2 : MField :=
  .mk "tags" "ListField" Option.none Option.none true PyVal.none [] false
    (some subStr) "" Option.none 2

/-- A schema holding the string-list field. -/
def mTwo : MModel := .mk "Doc2" [("tags", fList2)]

/-- A required integer field. -/
def fReq9 : MField :=
  .mk "age" "IntField" Option.none Option.none true PyVal.none [] false
    Option.none "" Option.none 3

/-- Caller-supplied field args carrying an (empty) validators list. -/
def fa9 : Kwargs := { validators := some [] }

/-- An optional field with a choice set. -/
def fCh : MField :=
  .mk "color" "StringField" Option.none Option.none false PyVal.none
    [("r", "red")] false Option.none "" Option.none 4

/-- A list field with no element type and no choices. -/
def fListNone : MField :=
  .mk "items" "ListField" Option.none Option.none true PyVal.none [] false
    Option.none "" Option.none 5

/-- The kwargs with which the choices branch of `convert` constructs its
select field: assembled kwargs, the field's choices, the coercion tag
when the type has a registered converter, and the `multiple` key popped. -/
def choiceKwargs (ctx : ConvCtx) (f : MField) (fa : Option Kwargs) : Kwargs :=
  let kw1 := { assembleKwargs f fa with choices := some f.choices }
  let kw2 := if registeredConverter ctx f.ftype then
      { kw1 with coerce := some f.ftype } else kw1
  { kw2 with multiple := Option.none }

/-! ### Dictionary lemmas -/

theorem dinsert_keys_sublist {α : Type} (k : String) (v : α) :
    ∀ l : List (String × α),
      List.Sublist ((dinsert k v l).map Prod.fst) (l.map Prod.fst ++ [k])
  | [] => by simp [dinsert]
  | (k', v') :: t => by
    by_cases hk : k' = k
    · subst hk
      simp only [dinsert, if_pos rfl, if_true, List.map_cons, List.cons_append]
      exact (List.sublist_append_left (t.map Prod.fst) [k']).cons₂ k'
    · simpa [dinsert, hk] using (dinsert_keys_sublist k v t).cons₂ k'

theorem mem_keys_dinsert_of_mem {α : Type} (k : String) (v : α) (n : String) :
    ∀ l : List (String × α),
      n ∈ l.map Prod.fst → n ∈ (dinsert k v l).map Prod.fst
  | [], h => by simp at h
  | (k', v') :: t, h => by
    by_cases hk : k' = k
    · subst hk
      simp only [dinsert, if_pos rfl, if_true, List.map_cons, List.mem_cons] at h ⊢
      exact h
    · simp only [dinsert, if_neg hk, List.map_cons, List.mem_cons] at h ⊢
      rcases h with h | h
      · exact Or.inl h
      · exact Or.inr (mem_keys_dinsert_of_mem k v n t h)

theorem mem_keys_dinsert_self {α : Type} (k : String) (v : α) :
    ∀ l : List (String × α), k ∈ (dinsert k v l).map Prod.fst
  | [] => by simp [dinsert]
  | (k', v') :: t => by
    by_cases hk : k' = k
    · subst hk
      simp only [dinsert, if_pos rfl, if_true, List.map_cons, List.mem_cons]
      exact Or.inl trivial
    · simp only [dinsert, if_neg hk, List.map_cons, List.mem_cons]
      exact Or.inr (mem_keys_dinsert_self k v t)

theorem dfind_dinsert_self {α : Type} (k : String) (v : α) :
    ∀ l : List (String × α), dfind (dinsert k v l) k = some v
  | [] => by simp [dinsert, dfind]
  | (k', v') :: t => by
    by_cases hk : k' = k
    · subst hk; simp [dinsert, dfind]
    · simpa [dinsert, dfind, hk] using dfind_dinsert_self k v t

theorem dfind_dinsert_ne {α : Type} (k k' : String) (v : α) (h : k' ≠ k) :
    ∀ l : List (String × α), dfind (dinsert k v l) k' = dfind l k'
  | [] => by
    have hne : ¬ k = k' := fun hh => h hh.symm
    simp [dinsert, dfind, hne]
  | (k₀, v₀) :: t => by
    by_cases hk : k₀ = k
    · subst hk
      have hne : ¬ k₀ = k' := fun hh => h hh.symm
      simp [dinsert, dfind, hne]
    · simp only [dinsert, if_neg hk, dfind]
      by_cases h₀ : k₀ = k'
      · simp [h₀]
      · simpa [h₀] using dfind_dinsert_ne k k' v h t

theorem mem_keys_iff_dget {α : Type} :
    ∀ (l : List (String × α)) (n : String),
      n ∈ l.map Prod.fst ↔ (dget l n).isSome = true
  | [], n => by simp [dget]
  | (k, v) :: t, n => by
    simp only [List.map_cons, List.mem_cons, dget]
    cases h : dget t n with
    | some w =>
      simp only [Option.isSome_some, iff_true]
      exact Or.inr ((mem_keys_iff_dget t n).mpr (by simp [h]))
    | none =>
      by_cases hk : k = n
      · subst hk; simp
      · simp only [if_neg hk, Option.isSome_none]
        constructor
        · rintro (rfl | hm)
          · exact absurd rfl hk
          · have := (mem_keys_iff_dget t n).mp hm
            simp [h] at this
        · intro hf; exact absurd hf (by simp)

theorem dget_eq_none_of_not_mem {α : Type} {l : List (String × α)} {n : String}
    (h : n ∉ l.map Prod.fst) : dget l n = Option.none := by
  cases hg : dget l n with
  | none => rfl
  | some w => exact absurd ((mem_keys_iff_dget l n).mpr (by simp [hg])) h

theorem dfind_foldl_dinsert {α β : Type} (g : α → β) :
    ∀ (ex : List (String × α)) (fd : List (String × β)) (k : String),
      dfind (ex.foldl (fun acc p => dinsert p.1 (g p.2) acc) fd) k =
        (match dget ex k with
         | some x => some (g x)
         | Option.none => dfind fd k)
  | [], fd, k => by simp [dget]
  | (n, x) :: rest, fd, k => by
    simp only [List.foldl_cons, dget]
    rw [dfind_foldl_dinsert g rest (dinsert n (g x) fd) k]
    cases h : dget rest k with
    | some w => simp
    | none =>
      by_cases hn : n = k
      · subst hn; simp [dfind_dinsert_self]
      · simp [hn, dfind_dinsert_ne n k (g x) (fun hh => hn hh.symm) fd]

theorem dfind_map_afield :
    ∀ (fd : List (String × FormField)) (k : String),
      dfind (fd.map (fun p => (p.1, Attr.afield p.2))) k =
        (dfind fd k).map Attr.afield
  | [], _ => rfl
  | (n, f) :: t, k => by
    by_cases hn : n = k
    · subst hn; simp [dfind]
    · simpa [dfind, hn] using dfind_map_afield t k

/-! ### Lemmas on attribute-name sequences -/

@[simp] theorem attrFieldNames_nil : attrFieldNames [] = [] := rfl

@[simp] theorem attrFieldNames_cons_afield (k : String) (f : FormField)
    (t : List (String × Attr)) :
    attrFieldNames ((k, Attr.afield f) :: t) = k :: attrFieldNames t := rfl

@[simp] theorem attrFieldNames_cons_modelRef (k : String) (m : MModel)
    (t : List (String × Attr)) :
    attrFieldNames ((k, Attr.modelRef m) :: t) = attrFieldNames t := rfl

theorem attrFieldNames_map_afield :
    ∀ fd : List (String × FormField),
      attrFieldNames (fd.map (fun p => (p.1, Attr.afield p.2))) = fd.map Prod.fst
  | [] => rfl
  | (n, f) :: t => by
    simpa [attrFieldNames] using attrFieldNames_map_afield t

theorem attrFieldNames_dinsert_modelRef_sublist (k : String) (m : MModel) :
    ∀ l : List (String × Attr),
      List.Sublist (attrFieldNames (dinsert k (Attr.modelRef m) l)) (attrFieldNames l)
  | [] => by simp [dinsert]
  | (k₀, a) :: t => by
    by_cases hk : k₀ = k
    · subst hk
      cases a with
      | afield f =>
        simp only [dinsert, if_pos rfl, if_true, attrFieldNames_cons_modelRef,
          attrFieldNames_cons_afield]
        exact List.sublist_cons_self k₀ (attrFieldNames t)
      | modelRef m' =>
        simp only [dinsert, if_pos rfl, if_true, attrFieldNames_cons_modelRef]
        exact List.Sublist.refl _
    · cases a with
      | afield f =>
        simp only [dinsert, if_neg hk, attrFieldNames_cons_afield]
        exact (attrFieldNames_dinsert_modelRef_sublist k m t).cons₂ k₀
      | modelRef m' =>
        simp only [dinsert, if_neg hk, attrFieldNames_cons_modelRef]
        exact attrFieldNames_dinsert_modelRef_sublist k m t

theorem mem_attrFieldNames_dinsert_modelRef (k e : String) (m : MModel) (h : e ≠ k) :
    ∀ l : List (String × Attr),
      e ∈ attrFieldNames (dinsert k (Attr.modelRef m) l) ↔ e ∈ attrFieldNames l
  | [] => by simp [dinsert]
  | (k₀, a) :: t => by
    by_cases hk : k₀ = k
    · subst hk
      cases a with
      | afield f =>
        simp only [dinsert, if_pos rfl, if_true, attrFieldNames_cons_modelRef,
          attrFieldNames_cons_afield, List.mem_cons]
        constructor
        · exact Or.inr
        · rintro (rfl | hm)
          · exact absurd rfl h
          · exact hm
      | modelRef m' =>
        simp only [dinsert, if_pos rfl, if_true, attrFieldNames_cons_modelRef]
    · cases a with
      | afield f =>
        simp only [dinsert, if_neg hk, attrFieldNames_cons_afield, List.mem_cons]
        constructor
        · rintro (rfl | hm)
          · exact Or.inl rfl
          · exact Or.inr ((mem_attrFieldNames_dinsert_modelRef k e m h t).mp hm)
        · rintro (rfl | hm)
          · exact Or.inl rfl
          · exact Or.inr ((mem_attrFieldNames_dinsert_modelRef k e m h t).mpr hm)
      | modelRef m' =>
        simp only [dinsert, if_neg hk, attrFieldNames_cons_modelRef]
        exact mem_attrFieldNames_dinsert_modelRef k e m h t

/-! ### Lemmas on `finishForm` -/

theorem finishForm_fieldNames_none (m : MModel) (fd : List (String × FormField)) :
    List.Sublist (finishForm m fd Option.none).fieldNames (fd.map Prod.fst) := by
  have h := attrFieldNames_dinsert_modelRef_sublist "model_class" m
    (fd.map (fun p => (p.1, Attr.afield p.2)))
  rw [attrFieldNames_map_afield] at h
  simpa [finishForm, FormType.fieldNames] using h

theorem finishForm_mem_fieldNames_none (m : MModel) (fd : List (String × FormField))
    (e : String) (h : e ≠ "model_class") :
    e ∈ (finishForm m fd Option.none).fieldNames ↔ e ∈ fd.map Prod.fst := by
  have hm := mem_attrFieldNames_dinsert_modelRef "model_class" e m h
    (fd.map (fun p => (p.1, Attr.afield p.2)))
  rw [attrFieldNames_map_afield] at hm
  simpa [finishForm, FormType.fieldNames] using hm

theorem finishForm_model_class (m : MModel) (fd : List (String × FormField))
    (extras : Option (List (String × RawField))) :
    (finishForm m fd extras).attr "model_class" = some (Attr.modelRef m) := by
  rcases extras with _ | ⟨_ | ⟨e, es⟩⟩ <;>
    simp [finishForm, FormType.attr, FormType.attrs, dfind_dinsert_self]

theorem finishForm_attr_extra (m : MModel) (fd : List (String × FormField))
    (exl : List (String × RawField)) (nm : String) (rf : RawField)
    (hm : nm ≠ "model_class") (hx : dget exl nm = some rf) :
    (finishForm m fd (some exl)).attr nm = some (Attr.afield (recreate_field rf)) := by
  cases exl with
  | nil => simp [dget] at hx
  | cons e es =>
    simp only [finishForm, FormType.attr, FormType.attrs]
    rw [dfind_dinsert_ne _ _ _ hm, dfind_map_afield,
      dfind_foldl_dinsert recreate_field (e :: es) fd nm, hx]
    rfl

/-! ### Lemmas on the conversion loop -/

theorem create_fields_keys_sublist (ctx : ConvCtx) (m : MModel)
    (fas : List (String × Kwargs)) :
    ∀ (props : List (String × Except Err PField)) (fuel : Nat)
      (acc out : List (String × FormField)),
      create_fields ctx fuel m props fas acc = .ok out →
      List.Sublist (out.map Prod.fst) (acc.map Prod.fst ++ props.map Prod.fst)
  | [], fuel, acc, out, h => by
    simp only [create_fields, Except.ok.injEq] at h
    subst h; simp
  | (n, .error e) :: rest, fuel, acc, out, h => by
    cases fuel <;> simp [create_fields] at h
  | (n, .ok p) :: rest, fuel, acc, out, h => by
    cases fuel with
    | zero => simp [create_fields] at h
    | succ fu =>
      simp only [create_fields] at h
      cases hc : convert ctx fu m p (dget fas n) with
      | error e => rw [hc] at h; exact absurd h (by simp)
      | ok r =>
        rw [hc] at h
        cases r with
        | none =>
          have ih := create_fields_keys_sublist ctx m fas rest fu acc out h
          refine ih.trans ?_
          exact List.Sublist.append_left
            (List.sublist_cons_self n (rest.map Prod.fst)) _
        | some f =>
          have ih := create_fields_keys_sublist ctx m fas rest fu
            (dinsert n f acc) out h
          have hk := (dinsert_keys_sublist n f acc).append_right (rest.map Prod.fst)
          simpa [List.append_assoc] using ih.trans hk

theorem create_fields_keys_mono (ctx : ConvCtx) (m : MModel)
    (fas : List (String × Kwargs)) :
    ∀ (props : List (String × Except Err PField)) (fuel : Nat)
      (acc out : List (String × FormField)),
      create_fields ctx fuel m props fas acc = .ok out →
      ∀ x, x ∈ acc.map Prod.fst → x ∈ out.map Prod.fst
  | [], fuel, acc, out, h => by
    simp only [create_fields, Except.ok.injEq] at h
    subst h; exact fun x hx => hx
  | (n, .error e) :: rest, fuel, acc, out, h => by
    cases fuel <;> simp [create_fields] at h
  | (n, .ok p) :: rest, fuel, acc, out, h => by
    cases fuel with
    | zero => simp [create_fields] at h
    | succ fu =>
      simp only [create_fields] at h
      cases hc : convert ctx fu m p (dget fas n) with
      | error e => rw [hc] at h; exact absurd h (by simp)
      | ok r =>
        rw [hc] at h
        cases r with
        | none => exact create_fields_keys_mono ctx m fas rest fu acc out h
        | some f =>
          intro x hx
          exact create_fields_keys_mono ctx m fas rest fu _ out h x
            (mem_keys_dinsert_of_mem n f x acc hx)

theorem create_fields_mem_of_placeholder (ctx : ConvCtx) (m : MModel)
    (fas : List (String × Kwargs)) :
    ∀ (props : List (String × Except Err PField)) (fuel : Nat)
      (acc out : List (String × FormField)),
      create_fields ctx fuel m props fas acc = .ok out →
      ∀ (nm : String) (rf : RawField),
        (nm, Except.ok (PField.placeholder rf)) ∈ props →
        nm ∈ out.map Prod.fst
  | [], fuel, acc, out, h => by
    intro nm rf hmem; simp at hmem
  | (n, ep) :: rest, fuel, acc, out, h => by
    intro nm rf hmem
    cases fuel with
    | zero => cases ep <;> simp [create_fields] at h
    | succ fu =>
      rcases List.mem_cons.mp hmem with heq | hmem'
      · obtain ⟨h1, h2⟩ := Prod.mk.inj heq
        subst h1
        subst h2
        simp only [create_fields] at h
        cases fu with
        | zero => simp [convert] at h
        | succ fu' =>
          have hcv : convert ctx (fu' + 1) m (.placeholder rf) (dget fas nm) =
              .ok (some (recreate_field rf)) := rfl
          rw [hcv] at h
          exact create_fields_keys_mono ctx m fas rest (fu' + 1) _ out h nm
            (mem_keys_dinsert_self nm (recreate_field rf) acc)
      · cases ep with
        | error e => simp [create_fields] at h
        | ok p =>
          simp only [create_fields] at h
          cases hc : convert ctx fu m p (dget fas n) with
          | error e => rw [hc] at h; exact absurd h (by simp)
          | ok r =>
            rw [hc] at h
            cases r with
            | none =>
              exact create_fields_mem_of_placeholder ctx m fas rest fu acc out h
                nm rf hmem'
            | some f =>
              exact create_fields_mem_of_placeholder ctx m fas rest fu _ out h
                nm rf hmem'

theorem sortByCounter_singleton (x : String × MField) : sortByCounter [x] = [x] := rfl

theorem map_fst_pair_map {β : Type} (g : String → β) :
    ∀ l : List String, (l.map (fun a => (a, g a))).map Prod.fst = l
  | [] => rfl
  | a :: t => by simp [map_fst_pair_map g t]

/-- Characterization of the choices branch of `convert`: a non-empty
choice set short-circuits conversion to a select field built from
`choiceKwargs`, multi-select exactly when the merged kwargs carry a
truthy `multiple` entry. -/
theorem convert_choices_eq (ctx : ConvCtx) (fuel : Nat) (m : MModel) (f : MField)
    (fa : Option Kwargs) (h : f.choices ≠ []) :
    convert ctx (fuel + 1) m (.real f) fa =
      .ok (some (if (assembleKwargs f fa).multiple.getD false then
          FormField.selectMultipleField (choiceKwargs ctx f fa)
        else FormField.selectField (choiceKwargs ctx f fa))) := by
  obtain ⟨nm, ft, vn, ht, r, d, c, hk, sf, dt, o, cc⟩ := f
  cases hc : c with
  | nil => exact absurd (by simpa [MField.choices] using hc) h
  | cons c0 cs =>
    subst hc
    by_cases hreg : registeredConverter ctx ft = true <;>
      simp [convert, choiceKwargs, MField.choices, MField.ftype, hreg]

/-- The choices branch never touches the `validators` entry of the
assembled kwargs. -/
theorem choiceKwargs_validators (ctx : ConvCtx) (f : MField) (fa : Option Kwargs) :
    (choiceKwargs ctx f fa).validators = (assembleKwargs f fa).validators := by
  by_cases hreg : registeredConverter ctx f.ftype = true <;>
    simp [choiceKwargs, hreg]

/-! ### Claim C2 -/

/-- Claim C2, counterexample.  `fList2` is a required, non-placeholder
list field without choices, yet the produced field (an
`InlineFieldList`) carries an empty validator list: `conv_List` rebuilds
its kwargs as `{'validators': [], 'filters': []}`, so neither a Required
nor an Optional validator is present — refuting "exactly one of the two
presence validators, never neither". -/
theorem claim2_counterexample :
    fList2.required = true ∧
    resultValidators (convert ctx0 9 mTwo (.real fList2) Option.none) = some [] :=
  ⟨rfl, rfl⟩

/-- Claim C2 (amended): for every non-placeholder field descriptor, the
keyword arguments `convert` assembles (lines 44-58) receive exactly one
appended presence validator — Required when the field is required,
Optional otherwise, never both and never neither — appended to whatever
`validators` list the caller's `field_args` supplied (the empty list by
default); and on every conversion path except the ListField and
EmbeddedDocumentField converters, the produced form field carries
exactly these assembled kwargs' validators (those two converters
rebuild kwargs with an empty validator list). -/
theorem claim2_presence_validator (ctx : ConvCtx) (fuel : Nat) (m : MModel)
    (f : MField) (fa : Option Kwargs) (ff : FormField) :
    ((assembleKwargs f fa).validators =
        some ((faValidators fa).getD [] ++ [presenceValidator f]) ∧
      (presenceValidator f = Validator.required ↔ f.required = true) ∧
      (presenceValidator f = Validator.optional ↔ f.required = false)) ∧
    (f.ftype ≠ "ListField" → f.ftype ≠ "EmbeddedDocumentField" →
      convert ctx (fuel + 1) m (.real f) fa = .ok (some ff) →
      ff.kwargsValidators = (assembleKwargs f fa).validators) := by
  constructor
  · refine ⟨?_, ?_, ?_⟩
    · cases fa with
      | none => simp [assembleKwargs, baseKwargs, faValidators]
      | some a =>
        cases ha : a.validators <;>
          simp [assembleKwargs, baseKwargs, Kwargs.update, faValidators, ha]
    · cases hr : f.required <;> simp [presenceValidator, hr]
    · cases hr : f.required <;> simp [presenceValidator, hr]
  · intro hl he hcv
    obtain ⟨nm, ft, vn, ht, r, d, c, hk, sf, dt, o, cc⟩ := f
    simp only [MField.ftype] at hl he
    cases hc : c with
    | cons c0 cs =>
      subst hc
      rw [convert_choices_eq ctx fuel m _ fa (by simp [MField.choices])] at hcv
      rw [← choiceKwargs_validators ctx
        (MField.mk nm ft vn ht r d (c0 :: cs) hk sf dt o cc) fa]
      cases hb : (assembleKwargs
          (MField.mk nm ft vn ht r d (c0 :: cs) hk sf dt o cc) fa).multiple.getD false <;>
        rw [hb] at hcv <;>
        simp at hcv <;>
        subst hcv <;>
        simp [FormField.kwargsValidators, FormField.kwargsOf]
    | nil =>
      subst hc
      simp only [convert, MField.choices, MField.has_to_form_field,
        MField.name, MField.ftype] at hcv
      split_ifs at hcv
      all_goals simp at hcv
      all_goals subst hcv
      all_goals simp [FormField.kwargsValidators, FormField.kwargsOf]

/-- Claim C2, witness: on the required field `fReq9` with field args
supplying an empty validators list, the assembled kwargs carry exactly
the appended Required presence validator, and the base-converted field
produced by `convert` carries exactly these kwargs' validators. -/
theorem claim2_presence_validator_witness :
    ((assembleKwargs fReq9 (some fa9)).validators =
        some ((faValidators (some fa9)).getD [] ++ [presenceValidator fReq9]) ∧
      (presenceValidator fReq9 = Validator.required ↔ fReq9.required = true) ∧
      (presenceValidator fReq9 = Validator.optional ↔ fReq9.required = false)) ∧
    FormField.kwargsValidators
        (FormField.baseConverted "IntField" (assembleKwargs fReq9 (some fa9))) =
      (assembleKwargs fReq9 (some fa9)).validators :=
  ⟨(claim2_presence_validator ctx0 0 mAB fReq9 (some fa9)
      (FormField.baseConverted "IntField" (assembleKwargs fReq9 (some fa9)))).1,
   (claim2_presence_validator ctx0 0 mAB fReq9 (some fa9)
      (FormField.baseConverted "IntField" (assembleKwargs fReq9 (some fa9)))).2
     (by decide) (by decide) rfl⟩

/-! ### Claim C3 -/

/-- Claim C3 (confirmed): a non-placeholder field with a non-empty
choice set converts to a select field — multi-select exactly when a
truthy `multiple` entry was passed through `field_args` — whose choice
list equals the field's choices; the result does not depend on the
field's `to_form_field` hook or on the per-name override table, since
the choices branch returns before consulting either. -/
theorem claim3_choices_select (ctx : ConvCtx) (fuel : Nat) (m : MModel)
    (f : MField) (fa : Option Kwargs) (b : Bool) (ov : List String)
    (h : f.choices ≠ []) :
    selectShape (convert ctx (fuel + 1) m (.real f) fa) =
      some (faMultiple fa, some f.choices) ∧
    convert ctx (fuel + 1) m (.real (f.withHook b)) fa =
      convert ctx (fuel + 1) m (.real f) fa ∧
    convert ⟨ov, ctx.baseConverters⟩ (fuel + 1) m (.real f) fa =
      convert ctx (fuel + 1) m (.real f) fa := by
  obtain ⟨nm, ft, v, ht, r, d, c, hk, sf, dt, o, cc⟩ := f
  cases hc : c with
  | nil =>
    exact absurd (by simpa [MField.choices] using hc) h
  | cons c0 cs =>
    subst hc
    refine ⟨?_, ?_, ?_⟩
    · have hmul2 : (assembleKwargs (MField.mk nm ft v ht r d (c0 :: cs) hk sf dt o cc)
          fa).multiple.getD false = faMultiple fa := by
        cases fa with
        | none => simp [assembleKwargs, baseKwargs, faMultiple]
        | some a => simp [assembleKwargs, baseKwargs, Kwargs.update, faMultiple]
      by_cases hreg : registeredConverter ctx ft = true <;>
        cases hb : faMultiple fa <;>
        simp [convert, selectShape, MField.choices, MField.ftype, hreg, hmul2, hb]
    · simp [convert, MField.withHook, MField.choices, MField.ftype,
        assembleKwargs, baseKwargs, MField.verbose_name, MField.name,
        MField.help_text, MField.default, presenceValidator, MField.required]
    · simp [convert, MField.choices, MField.ftype, registeredConverter]

/-- Claim C3, witness: the choice field `fCh` converts to a
single-select field with its own choice list. -/
theorem claim3_choices_select_witness :
    selectShape (convert ctx0 3 mOne (.real fCh) Option.none) =
      some (faMultiple Option.none, some fCh.choices) :=
  (claim3_choices_select ctx0 2 mOne fCh Option.none true [] (by decide)).1

/-! ### Claim C4 -/

/-- Claim C4 (code bug): with `only` absent and a non-empty `exclude`,
`get_form` never filters — the generator expression
`(p for p in properties in p[0] not in exclude)` (line 192) immediately
evaluates the chained comparison `properties in p[0] not in exclude`
with `p` unbound and raises `NameError`, contradicting the function's
own docstring for `exclude`. -/
theorem claim4_exclude_name_error :
    get_form ctx0 9 mAB Option.none (some ["a"]) [] Option.none =
      .error (.nameError "name p is not defined") := rfl

/-! ### Claim C7 -/

/-- Claim C7, counterexample.  `fList7` is a list field whose element
type is unspecified (`field.field is None`), yet conversion silently
succeeds: its non-empty choice set routes `convert` into the choices
branch, which returns a select field before `conv_List` runs — refuting
"conversion never silently succeeds for such a field". -/
theorem claim7_counterexample :
    fList7.ftype = "ListField" ∧
    fList7.subfield = Option.none ∧
    convertedSome (convert ctx0 5 mOne (.real fList7) Option.none) = true :=
  ⟨rfl, rfl, rfl⟩

/-- Claim C7 (amended): `conv_List` always raises a `ValueError` naming
the field and the model when the element type is unspecified, and
`convert` propagates it whenever the list converter is reached, i.e. for
list fields without choices, custom hook, or per-name override; the
choices, hook and override branches however return before `conv_List`
runs. -/
theorem claim7_list_requires_subfield (ctx : ConvCtx) (fuel : Nat)
    (m : MModel) (f : MField) (fa : Option Kwargs) (kw : Kwargs)
    (hft : f.ftype = "ListField") (hsub : f.subfield = Option.none)
    (hch : f.choices = []) (hhook : f.has_to_form_field = false)
    (hov : f.name ∉ ctx.overrides) :
    conv_List ctx (fuel + 1) m f kw =
      .error (.valueError (listFieldMsg f.name m.name)) ∧
    convert ctx (fuel + 2) m (.real f) fa =
      .error (.valueError (listFieldMsg f.name m.name)) := by
  constructor
  · simp [conv_List, hsub]
  · simp [convert, hch, hhook, hov, hft, conv_List, hsub]

/-- Claim C7, witness: the element-less, choice-less list field
`fListNone` raises the configuration error naming field and model. -/
theorem claim7_list_requires_subfield_witness :
    conv_List ctx0 4 mOne fListNone {} =
      .error (.valueError (listFieldMsg fListNone.name mOne.name)) ∧
    convert ctx0 5 mOne (.real fListNone) Option.none =
      .error (.valueError (listFieldMsg fListNone.name mOne.name)) :=
  claim7_list_requires_subfield ctx0 3 mOne fListNone Option.none {}
    rfl rfl rfl rfl (by decide)

/-! ### Claim C8 -/

/-- Claim C8 (confirmed): a non-placeholder field without choices,
without a `to_form_field` hook, without a per-name override, and whose
type name has no registered converter makes `convert` return `None`,
and `get_form` drops it from the produced form without error: on a
schema holding only such a field the form carries no form field, only
the `model_class` attribute. -/
theorem claim8_unregistered_omitted (ctx : ConvCtx) (fuel : Nat) (m : MModel)
    (f : MField) (fa : Option Kwargs) (fas : List (String × Kwargs)) (mn : String)
    (hch : f.choices = []) (hhook : f.has_to_form_field = false)
    (hov : f.name ∉ ctx.overrides) (hcust : f.ftype ∉ customConverterNames)
    (hbase : f.ftype ∉ ctx.baseConverters) :
    convert ctx (fuel + 1) m (.real f) fa = .ok Option.none ∧
    get_form ctx (fuel + 3) (MModel.mk mn [(f.name, f)]) Option.none Option.none
        fas Option.none =
      .ok (FormType.mk (mn ++ "Form")
        [("model_class", Attr.modelRef (MModel.mk mn [(f.name, f)]))]) := by
  have hne : f.ftype ≠ "DateTimeField" ∧ f.ftype ≠ "ListField" ∧
      f.ftype ≠ "EmbeddedDocumentField" ∧ f.ftype ≠ "ReferenceField" ∧
      f.ftype ≠ "FileField" ∧ f.ftype ≠ "ImageField" := by
    refine ⟨?_, ?_, ?_, ?_, ?_, ?_⟩ <;>
      intro he <;> exact hcust (by simp [customConverterNames, he])
  obtain ⟨h1, h2, h3, h4, h5, h6⟩ := hne
  have hcv : ∀ fa' : Option Kwargs,
      convert ctx (fuel + 1) m (.real f) fa' = .ok Option.none := by
    intro fa'
    simp [convert, hch, hhook, hov, h1, h2, h3, h4, h5, h6, hbase]
  refine ⟨hcv fa, ?_⟩
  have hcv2 : ∀ fa' : Option Kwargs, ∀ m' : MModel,
      convert ctx (fuel + 1) m' (.real f) fa' = .ok Option.none := by
    intro fa' m'
    simp [convert, hch, hhook, hov, h1, h2, h3, h4, h5, h6, hbase]
  simp only [get_form, MModel.fields, sortByCounter_singleton, List.map_cons,
    List.map_nil, create_fields, hcv2]
  simp [finishForm, dinsert, MModel.name]

/-- Claim C8, witness: the `GeoField`-typed `fWeird` is silently
dropped. -/
theorem claim8_unregistered_omitted_witness :
    convert ctx0 4 mAB (.real fWeird) Option.none = .ok Option.none ∧
    get_form ctx0 6 (MModel.mk "Solo" [(fWeird.name, fWeird)]) Option.none
        Option.none [] Option.none =
      .ok (FormType.mk ("Solo" ++ "Form")
        [("model_class", Attr.modelRef (MModel.mk "Solo" [(fWeird.name, fWeird)]))]) :=
  claim8_unregistered_omitted ctx0 3 mAB fWeird Option.none [] "Solo"
    rfl rfl (by decide) (by decide) (by decide)

/-! ### Claim C9 -/

/-- Claim C9, counterexample.  Passing `field_args` that carry a
`validators` list is *not* side-effect-free: `kwargs.update(field_args)`
aliases the caller's list and the presence-validator append mutates it
in place, so after one `convert` call on the required field `fReq9` the
caller's list holds a Required validator, and a second call accumulates
another — refuting "the mapping and any list values it contains are
identical before and after the call". -/
theorem claim9_counterexample :
    convertFieldArgsAfter ctx0 fReq9 fa9 ≠ fa9 ∧
    convertFieldArgsAfter ctx0 fReq9 (convertFieldArgsAfter ctx0 fReq9 fa9) =
      { fa9 with validators := some [Validator.required, Validator.required] } := by
  constructor
  · decide
  · rfl

/-- Claim C9 (amended): `convert` leaves a caller-supplied `field_args`
mapping unchanged whenever it carries no `validators` entry; when it
does carry one, the presence validator(s) are appended to that list in
place — on the choices path the produced select field exposes exactly
the caller's list extended by the aliased appends. -/
theorem claim9_field_args_effect (ctx : ConvCtx) (fuel : Nat) (m : MModel)
    (f : MField) (fa : Kwargs) (v : List Validator) :
    (fa.validators = Option.none → convertFieldArgsAfter ctx f fa = fa) ∧
    (fa.validators = some v → f.choices ≠ [] →
      ∃ ff, convert ctx (fuel + 1) m (.real f) (some fa) = .ok (some ff) ∧
        ff.kwargsValidators = some (v ++ aliasedAppends ctx f)) := by
  constructor
  · intro hv
    simp [convertFieldArgsAfter, hv]
  · intro hv hch
    have happ : aliasedAppends ctx f = [presenceValidator f] := by
      cases hs : f.subfield with
      | none => simp [aliasedAppends, hs]
      | some sub => simp [aliasedAppends, hs, hch]
    have hval : (assembleKwargs f (some fa)).validators =
        some (v ++ [presenceValidator f]) := by
      simp [assembleKwargs, baseKwargs, Kwargs.update, hv]
    cases hb : (assembleKwargs f (some fa)).multiple.getD false
    · refine ⟨FormField.selectField (choiceKwargs ctx f (some fa)), ?_, ?_⟩
      · rw [convert_choices_eq ctx fuel m f (some fa) hch, hb]; simp
      · simp [FormField.kwargsValidators, FormField.kwargsOf,
          choiceKwargs_validators, hval, happ]
    · refine ⟨FormField.selectMultipleField (choiceKwargs ctx f (some fa)), ?_, ?_⟩
      · rw [convert_choices_eq ctx fuel m f (some fa) hch, hb]; simp
      · simp [FormField.kwargsValidators, FormField.kwargsOf,
          choiceKwargs_validators, hval, happ]

/-- Claim C9, witness: field args without a `validators` entry are left
unchanged, and with one, the select field built from `fCh` exposes the
caller's list plus the aliased appends. -/
theorem claim9_field_args_effect_witness :
    convertFieldArgsAfter ctx0 fReq9 {} = {} ∧
    (∃ ff, convert ctx0 3 mOne (.real fCh) (some fa9) = .ok (some ff) ∧
      ff.kwargsValidators = some ([] ++ aliasedAppends ctx0 fCh)) :=
  ⟨(claim9_field_args_effect ctx0 0 mOne fReq9 {} []).1 rfl,
   (claim9_field_args_effect ctx0 2 mOne fCh fa9 []).2 rfl (by decide)⟩

/-! ### Claim C5 -/

/-- Claim C5 (confirmed): each name in `only` resolves to an
`extra_fields` entry when one applies (the extra field wins over a
same-named schema field, since `find` checks `extra_fields` first),
else to a declared schema field; when it resolves to neither, `find`
raises a `ValueError` whose message interpolates the model and the
offending name, and `get_form` propagates it. -/
theorem claim5_only_resolution (extras : Option (List (String × RawField)))
    (props : List (String × MField)) (mn e : String) (rf : RawField)
    (p : MField) (ctx : ConvCtx) (fuel : Nat) (m : MModel)
    (excl : Option (List String)) (fas : List (String × Kwargs))
    (rest : List String) :
    (extraLookup extras e = some rf →
      findProp extras props mn e = .ok (.placeholder rf)) ∧
    (extraLookup extras e = Option.none → dget props e = some p →
      findProp extras props mn e = .ok (.real p)) ∧
    (extraLookup extras e = Option.none → dget props e = Option.none →
      findProp extras props mn e =
        .error (.valueError (invalidPropertyMsg mn e))) ∧
    (extraLookup extras e = Option.none → e ∉ m.fields.map Prod.fst →
      get_form ctx (fuel + 2) m (some (e :: rest)) excl fas extras =
        .error (.valueError (invalidPropertyMsg m.name e))) := by
  refine ⟨?_, ?_, ?_, ?_⟩
  · intro hx; simp [findProp, hx]
  · intro hx hp; simp [findProp, hx, hp]
  · intro hx hp; simp [findProp, hx, hp]
  · intro hx hm
    have hdg : dget (sortByCounter m.fields) e = Option.none := by
      apply dget_eq_none_of_not_mem
      intro hmem
      exact hm (((List.perm_insertionSort fieldLe m.fields).map
        Prod.fst).mem_iff.mp hmem)
    have hfp : findProp extras (sortByCounter m.fields) m.name e =
        .error (.valueError (invalidPropertyMsg m.name e)) := by
      simp [findProp, hx, hdg]
    simp [get_form, create_fields, hfp]

/-- Claim C5, witness: the four resolution modes at concrete inputs — an
extra field wins, a schema field resolves, a missing name fails in
`findProp`, and `get_form` propagates the lookup error. -/
theorem claim5_only_resolution_witness :
    findProp (some [("bonus", raw6)]) [] "M" "bonus" = .ok (.placeholder raw6) ∧
    findProp Option.none [("b", fStrB)] "M" "b" = .ok (.real fStrB) ∧
    findProp Option.none [] "M" "zz" =
      .error (.valueError (invalidPropertyMsg "M" "zz")) ∧
    get_form ctx0 9 mAB (some ["zz"]) Option.none [] Option.none =
      .error (.valueError (invalidPropertyMsg mAB.name "zz")) :=
  ⟨(claim5_only_resolution (some [("bonus", raw6)]) [] "M" "bonus" raw6 fStrB
      ctx0 0 mAB Option.none [] []).1 rfl,
   (claim5_only_resolution Option.none [("b", fStrB)] "M" "b" raw6 fStrB
      ctx0 0 mAB Option.none [] []).2.1 rfl rfl,
   (claim5_only_resolution Option.none [] "M" "zz" raw6 fStrB
      ctx0 0 mAB Option.none [] []).2.2.1 rfl rfl,
   (claim5_only_resolution Option.none [] "M" "zz" raw6 fStrB
      ctx0 7 mAB Option.none [] []).2.2.2 rfl (by decide)⟩

/-! ### Claim C10 -/

/-- Claim C10 (confirmed): every form type produced by a successful
`get_form` call carries the class attribute `model_class` holding the
schema it was built from; the assignment happens after field assembly
and extra-field merging, so a converted schema field or extra field
named `model_class` is silently replaced by the schema reference. -/
theorem claim10_model_class (ctx : ConvCtx) (fuel : Nat) (m : MModel)
    (only excl : Option (List String)) (fas : List (String × Kwargs))
    (extras : Option (List (String × RawField))) (ft : FormType)
    (h : get_form ctx fuel m only excl fas extras = .ok ft) :
    ft.attr "model_class" = some (Attr.modelRef m) := by
  cases fuel with
  | zero => simp [get_form] at h
  | succ fu =>
    simp only [get_form] at h
    split at h
    · split at h
      · simp at h
      · injection h with h'
        subst h'
        exact finishForm_model_class _ _ _
    · split at h
      · simp at h
      · split at h
        · simp at h
        · injection h with h'
          subst h'
          exact finishForm_model_class _ _ _

/-- Claim C10, witness: the form built from `mAB` holds `mAB` as its
`model_class` attribute. -/
theorem claim10_model_class_witness :
    (exOk (get_form ctx0 20 mAB Option.none Option.none [] Option.none)).attr
      "model_class" = some (Attr.modelRef mAB) :=
  claim10_model_class ctx0 20 mAB Option.none Option.none [] Option.none _ rfl

/-! ### Claim C1 -/

/-- Claim C1, counterexample.  With `only` absent, an extra field named
after a schema field that conversion dropped is appended at the end of
the field dict: schema `mAB` declares `a` (counter 1, no registered
converter, hence dropped) before `b` (counter 2), and `extra_fields`
supplies `a`; the produced form's schema-declared field names read
`[b, a]`, not a subsequence of the declaration order `[a, b]` — refuting
"the field names of the returned form type appear in the schema's
declaration order". -/
theorem claim1_counterexample :
    (get_form ctx0 20 mAB Option.none Option.none []
        (some [("a", rawX)])).isOk = true ∧
    schemaFieldSeq mAB
        (exOk (get_form ctx0 20 mAB Option.none Option.none []
          (some [("a", rawX)]))) = ["b", "a"] ∧
    declarationOrder mAB = ["a", "b"] ∧
    ¬ List.Sublist
        (schemaFieldSeq mAB
          (exOk (get_form ctx0 20 mAB Option.none Option.none []
            (some [("a", rawX)]))))
        (declarationOrder mAB) :=
  ⟨rfl, rfl, rfl, by decide⟩

/-- Claim C1 (amended): when `only` is absent and no extra fields are
supplied, the produced form's field names are a subsequence of the
schema's declaration order, which is sorted by ascending creation
counter; when a non-empty `only` is given, the field names are a
subsequence of `only`, in the order given.  Extra fields can append a
schema-named entry after the schema-ordered names only when they
override a schema field that conversion dropped. -/
theorem claim1_field_order (ctx : ConvCtx) (fuel : Nat) (m : MModel)
    (excl : Option (List String)) (fas : List (String × Kwargs))
    (extras : Option (List (String × RawField))) (n : String)
    (rest : List String) (ft ft' : FormType) :
    (get_form ctx fuel m Option.none excl fas Option.none = .ok ft →
      List.Sublist ft.fieldNames (declarationOrder m) ∧
      List.Sorted fieldLe (sortByCounter m.fields)) ∧
    (get_form ctx fuel m (some (n :: rest)) excl fas extras = .ok ft' →
      List.Sublist ft'.fieldNames (n :: rest)) := by
  constructor
  · intro h
    refine ⟨?_, List.sorted_insertionSort fieldLe m.fields⟩
    cases fuel with
    | zero => simp [get_form] at h
    | succ fu =>
      simp only [get_form] at h
      split at h
      · simp at h
      · split at h
        · simp at h
        · rename_i fd heq
          injection h with h'
          subst h'
          refine (finishForm_fieldNames_none m fd).trans ?_
          have hs := create_fields_keys_sublist ctx m fas _ fu [] fd heq
          simp only [List.map_nil, List.nil_append, List.map_map,
            Function.comp] at hs
          exact hs
  · intro h
    cases fuel with
    | zero => simp [get_form] at h
    | succ fu =>
      simp only [get_form] at h
      split at h
      · simp at h
      · rename_i fd heq
        injection h with h'
        subst h'
        refine (finishForm_fieldNames_none m fd).trans ?_
        have hs := create_fields_keys_sublist ctx m fas _ fu [] fd heq
        simp only [List.map_nil, List.nil_append] at hs
        rwa [map_fst_pair_map] at hs

/-- Claim C1, witness: without extras the form built from `mAB` lists
its fields in declaration order, and with `only` the `only` order. -/
theorem claim1_field_order_witness :
    List.Sublist
      (exOk (get_form ctx0 20 mAB Option.none Option.none []
        Option.none)).fieldNames (declarationOrder mAB) ∧
    List.Sublist
      (exOk (get_form ctx0 20 mAB (some ["b"]) Option.none []
        Option.none)).fieldNames ["b"] :=
  ⟨((claim1_field_order ctx0 20 mAB Option.none [] Option.none "b" []
      (exOk (get_form ctx0 20 mAB Option.none Option.none [] Option.none))
      (exOk (get_form ctx0 20 mAB (some ["b"]) Option.none []
        Option.none))).1 rfl).1,
   (claim1_field_order ctx0 20 mAB Option.none [] Option.none "b" []
      (exOk (get_form ctx0 20 mAB Option.none Option.none [] Option.none))
      (exOk (get_form ctx0 20 mAB (some ["b"]) Option.none []
        Option.none))).2 rfl⟩

/-! ### Claim C6 -/

/-- Claim C6, counterexample.  An extra field named `model_class` listed
in `only` is resolved, converted, and then silently overwritten by the
`model_class` assignment, so it is *not* a form field of the result even
though its name is listed in `only` — refuting "an extra field is
included iff its name is listed in `only`". -/
theorem claim6_counterexample :
    (get_form ctx0 20 mOne (some ["model_class"]) Option.none []
        (some [("model_class", raw6)])).isOk = true ∧
    "model_class" ∈ ["model_class"] ∧
    (exOk (get_form ctx0 20 mOne (some ["model_class"]) Option.none []
        (some [("model_class", raw6)]))).fieldNames = [] ∧
    (exOk (get_form ctx0 20 mOne (some ["model_class"]) Option.none []
        (some [("model_class", raw6)]))).attr "model_class" =
      some (Attr.modelRef mOne) :=
  ⟨rfl, List.Mem.head _, rfl, rfl⟩

/-- Claim C6 (amended): for every extra field whose name is not
`model_class`, inclusion works as claimed — with a non-empty `only` the
extra appears as a form field iff its name is listed in `only`, and with
`only` absent every extra is merged as a freshly recreated field,
overriding any same-named converted schema field; an extra named
`model_class` is afterwards replaced by the schema reference. -/
theorem claim6_extra_fields (ctx : ConvCtx) (fuel : Nat) (m : MModel)
    (excl : Option (List String)) (fas : List (String × Kwargs))
    (exl : List (String × RawField)) (e : String) (rf : RawField)
    (n : String) (rest : List String) (ft ft' : FormType) :
    (dget exl e = some rf → e ≠ "model_class" →
      get_form ctx fuel m (some (n :: rest)) excl fas (some exl) = .ok ft →
      (e ∈ ft.fieldNames ↔ e ∈ n :: rest)) ∧
    (dget exl e = some rf → e ≠ "model_class" →
      get_form ctx fuel m Option.none excl fas (some exl) = .ok ft' →
      ft'.attr e = some (Attr.afield (recreate_field rf))) := by
  constructor
  · intro hmem hmc h
    cases fuel with
    | zero => simp [get_form] at h
    | succ fu =>
      simp only [get_form] at h
      split at h
      · simp at h
      · rename_i fd heq
        injection h with h'
        subst h'
        rw [finishForm_mem_fieldNames_none m fd e hmc]
        constructor
        · intro hin
          have hs := create_fields_keys_sublist ctx m fas _ fu [] fd heq
          simp only [List.map_nil, List.nil_append] at hs
          rw [map_fst_pair_map] at hs
          exact hs.subset hin
        · intro hin
          have hx : extraLookup (some exl) e = some rf := by
            cases exl with
            | nil => simp [dget] at hmem
            | cons x xs => simp [extraLookup, truthyList, hmem]
          have hfp : findProp (some exl) (sortByCounter m.fields) m.name e =
              .ok (.placeholder rf) := by
            simp [findProp, hx]
          have hmemS : (e, Except.ok (PField.placeholder rf)) ∈
              (n :: rest).map (fun nm =>
                (nm, findProp (some exl) (sortByCounter m.fields) m.name nm)) := by
            have hmm : (e, findProp (some exl) (sortByCounter m.fields) m.name e) ∈
                (n :: rest).map (fun nm =>
                  (nm, findProp (some exl) (sortByCounter m.fields) m.name nm)) :=
              List.mem_map_of_mem (fun nm =>
                (nm, findProp (some exl) (sortByCounter m.fields) m.name nm)) hin
            rw [hfp] at hmm
            exact hmm
          exact create_fields_mem_of_placeholder ctx m fas _ fu [] fd heq e rf hmemS
  · intro hmem hmc h
    cases fuel with
    | zero => simp [get_form] at h
    | succ fu =>
      simp only [get_form] at h
      split at h
      · simp at h
      · split at h
        · simp at h
        · rename_i fd heq
          injection h with h'
          subst h'
          exact finishForm_attr_extra m fd exl e rf hmc hmem

/-- Claim C6, witness: the extra `bonus` is included when listed in
`only`, and merged (recreated) when `only` is absent. -/
theorem claim6_extra_fields_witness :
    ("bonus" ∈ (exOk (get_form ctx0 20 mAB (some ["bonus"]) Option.none []
        (some [("bonus", raw6)]))).fieldNames ↔ "bonus" ∈ ["bonus"]) ∧
    (exOk (get_form ctx0 20 mAB Option.none Option.none []
        (some [("bonus", raw6)]))).attr "bonus" =
      some (Attr.afield (recreate_field raw6)) :=
  ⟨(claim6_extra_fields ctx0 20 mAB Option.none [] [("bonus", raw6)] "bonus"
      raw6 "bonus" []
      (exOk (get_form ctx0 20 mAB (some ["bonus"]) Option.none []
        (some [("bonus", raw6)])))
      (exOk (get_form ctx0 20 mAB Option.none Option.none []
        (some [("bonus", raw6)])))).1 rfl (by decide) rfl,
   (claim6_extra_fields ctx0 20 mAB Option.none [] [("bonus", raw6)] "bonus"
      raw6 "bonus" []
      (exOk (get_form ctx0 20 mAB (some ["bonus"]) Option.none []
        (some [("bonus", raw6)])))
      (exOk (get_form ctx0 20 mAB Option.none Option.none []
        (some [("bonus", raw6)])))).2 rfl (by decide) rfl⟩

end MongoForm
